import Mathlib

/-!
# Helix technique-module catalog

A verification development for the catalog of C++ technique-module templates and for the
composition engine the specification describes around it.

* `Helix.Catalog` embeds the eight template files as text, with a scanner for their tokens,
  function definitions, call arguments, placeholders and include lines.
* `Helix.Engine` models the registry lookup, renderer and dependency resolver of the
  specification; their code is not part of the template catalog.
* `Helix.Compress`, `Helix.Encrypt` and `Helix.Screenshot` embed the loops of the
  compression, encryption and screen-capture modules.
-/

namespace Helix.Catalog

/-- A template file of the catalog: its path below the repository root and its lines. -/
structure SourceFile where
  path : String
  lines : List String

/-- Lexical tokens of a template: C++ tokens plus the `${name}` placeholder token. -/
inductive Token where
  | ident (name : String)
  | hole (name : String)
  | str (text : String)
  | num (text : String)
  | sym (c : Char)
  deriving DecidableEq, Repr

/-- Scanner state; accumulators hold the characters read so far, newest first. -/
inductive LexState where
  | code
  | word (acc : List Char)
  | number (acc : List Char)
  | dollar
  | holeName (acc : List Char)
  | strLit (acc : List Char)
  | strEsc (acc : List Char)
  | slash
  | lineComment

def isWordStart (c : Char) : Bool := c.isAlpha || c == '_'

def isWordChar (c : Char) : Bool := c.isAlphanum || c == '_'

def mkString (acc : List Char) : String := String.mk acc.reverse

/-- Scanner step taken between tokens. -/
def stepCode (c : Char) : LexState × List Token :=
  if isWordStart c then (.word [c], [])
  else if c.isDigit then (.number [c], [])
  else if c == '$' then (.dollar, [])
  else if c == '"' then (.strLit [], [])
  else if c == '/' then (.slash, [])
  else if c.isWhitespace then (.code, [])
  else (.code, [.sym c])

/-- One scanner step: the next state and the tokens completed by this character. -/
def step (st : LexState) (c : Char) : LexState × List Token :=
  match st with
  | .code => stepCode c
  | .word acc =>
    if isWordChar c then (.word (c :: acc), [])
    else ((stepCode c).1, .ident (mkString acc) :: (stepCode c).2)
  | .number acc =>
    if isWordChar c then (.number (c :: acc), [])
    else ((stepCode c).1, .num (mkString acc) :: (stepCode c).2)
  | .dollar =>
    if c == '\x7b' then (.holeName [], [])
    else ((stepCode c).1, .sym '$' :: (stepCode c).2)
  | .holeName acc =>
    if c == '\x7d' then (.code, [.hole (mkString acc)])
    else (.holeName (c :: acc), [])
  | .strLit acc =>
    if c == '"' then (.code, [.str (mkString acc)])
    else if c == '\\' then (.strEsc (c :: acc), [])
    else (.strLit (c :: acc), [])
  | .strEsc acc => (.strLit (c :: acc), [])
  | .slash =>
    if c == '/' then (.lineComment, [])
    else ((stepCode c).1, .sym '/' :: (stepCode c).2)
  | .lineComment => (.lineComment, [])

/-- Tokens still pending when a line ends. -/
def flush : LexState → List Token
  | .word acc => [.ident (mkString acc)]
  | .number acc => [.num (mkString acc)]
  | .dollar => [.sym '$']
  | .slash => [.sym '/']
  | _ => []

def lexChars : List Char → LexState → List Token
  | [], st => flush st
  | c :: cs, st => (step st c).2 ++ lexChars cs (step st c).1

/-- A preprocessor line: the first non-blank character is `#`. -/
def isDirective (line : List Char) : Bool :=
  match line.dropWhile Char.isWhitespace with
  | '#' :: _ => true
  | _ => false

/-- Tokens of one line; preprocessor lines carry no tokens. -/
def lexLine (line : String) : List Token :=
  if isDirective line.toList then [] else lexChars line.toList .code

/-- Tokens of a whole file, in order. -/
def tokens (f : SourceFile) : List Token :=
  (f.lines.map lexLine).flatten

/-- Header named by a line of the form `#include <header>`. -/
def includeOf (line : String) : Option String :=
  match line.toList with
  | '#' :: 'i' :: 'n' :: 'c' :: 'l' :: 'u' :: 'd' :: 'e' :: ' ' :: '<' :: rest =>
    some (String.mk (rest.takeWhile (· != '>')))
  | _ => none

/-- Headers included by a file, in file order. -/
def includes (f : SourceFile) : List String :=
  f.lines.filterMap includeOf

def isName : Token → Bool
  | .ident _ => true
  | .hole _ => true
  | _ => false

/-- State of the scan for function definitions at file level. -/
structure DefScan where
  braces : Nat := 0
  parens : Nat := 0
  prev : Option Token := none
  cand : Option Token := none
  closed : Bool := false

/-- One step of the scan: a definition is reported at the `{` that follows the closing
parenthesis of a parameter list whose opening parenthesis follows a name. -/
def defStep (s : DefScan) (t : Token) : DefScan × List Token :=
  if s.braces > 0 then
    if t = .sym '\x7b' then ({ s with braces := s.braces + 1 }, [])
    else if t = .sym '\x7d' then ({ s with braces := s.braces - 1 }, [])
    else (s, [])
  else if s.parens > 0 then
    if t = .sym '(' then ({ s with parens := s.parens + 1 }, [])
    else if t = .sym ')' then
      ({ s with parens := s.parens - 1, closed := decide (s.parens = 1) }, [])
    else (s, [])
  else if t = .sym '(' then
    ({ s with parens := 1, cand := s.prev.filter isName, prev := none, closed := false }, [])
  else if t = .sym '\x7b' then
    ({ braces := 1 }, if s.closed then s.cand.toList else [])
  else ({ s with prev := some t, cand := none, closed := false }, [])

def scanDefs : List Token → DefScan → List Token
  | [], _ => []
  | t :: ts, s => (defStep s t).2 ++ scanDefs ts (defStep s t).1

/-- Names of the functions a file defines, in file order. -/
def definedFunctions (f : SourceFile) : List Token :=
  scanDefs (tokens f) {}

/-- Text of `helix/components/attack/collection/screen_capture/xlib/linux-screenshot-xlib.cpp`, one string per line. -/
def screenshotFile : SourceFile where
  path := "helix/components/attack/collection/screen_capture/xlib/linux-screenshot-xlib.cpp"
  lines := [
    "#include <X11/Xlib.h>",
    "#include <X11/Xutil.h>",
    "#include <CImg.h>",
    "#include <cstdint>",
    "#include <cstring>",
    "#include <vector>",
    "",
    "using namespace cimg_library;",
    "",
    "void $\x7blinux_screenshot_xlib\x7d(int argc, char*argv[])",
    "\x7b",
    "    // https://stackoverflow.com/questions/8249669/how-do-take-a-screenshot-correctly-with-xlib",
    "",
    "    int Width;",
    "    int Height;",
    "",
    "    Display* display = XOpenDisplay(nullptr);",
    "    Window root = DefaultRootWindow(display);",
    "",
    "    XWindowAttributes attributes = \x7b0\x7d;",
    "    XGetWindowAttributes(display, root, &attributes);",
    "",
    "    Width = attributes.width;",
    "    Height = attributes.height;",
    "",
    "    XImage* img = XGetImage(display, root, 0, 0 , Width, Height, AllPlanes, ZPixmap);",
    "",
    "    unsigned char *array = new unsigned char[Width * Height * 3];",
    "",
    "    unsigned long red_mask = img->red_mask;",
    "    unsigned long green_mask = img->green_mask;",
    "    unsigned long blue_mask = img->blue_mask;",
    "",
    "    CImg<unsigned char> screenshot(array, Width, Height, 1, 3);",
    "",
    "    for(int x = 0; x < Width; x++) \x7b",
    "        for(int y = 0; y < Height; y++) \x7b",
    "            unsigned long pixel = XGetPixel(img, x, y);",
    "",
    "            unsigned char blue = pixel & blue_mask;",
    "            unsigned char green = (pixel & green_mask) >> 8;",
    "            unsigned char red = (pixel & red_mask) >> 16;",
    "",
    "            screenshot(x, y, 0) = red;",
    "            screenshot(x, y, 1) = green;",
    "            screenshot(x, y, 2) = blue;",
    "        \x7d",
    "    \x7d",
    "",
    "    screenshot.save_png($\x7boutput\x7d);",
    "",
    "    XDestroyImage(img);",
    "    XCloseDisplay(display);",
    "\x7d",
    ""
  ]

/-- Text of `helix/components/attack/command_and_control/remote_file_copy/libcurl/linux-download-libcurl.cpp`, one string per line. -/
def downloadFile : SourceFile where
  path := "helix/components/attack/command_and_control/remote_file_copy/libcurl/linux-download-libcurl.cpp"
  lines := [
    "#define CURL_STATICLIB",
    "#include <stdio.h>",
    "#include <curl/curl.h>",
    "#include <string>",
    "",
    "size_t $\x7bwrite_data\x7d(void *ptr, size_t size, size_t nmemb, FILE *stream) \x7b",
    "    size_t written;",
    "    written = fwrite(ptr, size, nmemb, stream);",
    "    return written;",
    "\x7d",
    "",
    "int $\x7blinux_download_libcurl\x7d(int argc, char*argv[]) \x7b",
    "    // http://www.cplusplus.com/forum/windows/122859/",
    "",
    "    CURL *curl;",
    "    FILE *fp;",
    "    CURLcode res;",
    "",
    "    curl = curl_easy_init();",
    "",
    "    if (curl) \x7b",
    "        fp = fopen($\x7boutput\x7d, \"wb\");",
    "",
    "        curl_easy_setopt(curl, CURLOPT_URL, $\x7burl\x7d);",
    "        curl_easy_setopt(curl, CURLOPT_WRITEFUNCTION, $\x7bwrite_data\x7d);",
    "        curl_easy_setopt(curl, CURLOPT_WRITEDATA, fp);",
    "        curl_easy_setopt(curl, CURLOPT_VERBOSE, 1L);",
    "",
    "        res = curl_easy_perform(curl);",
    "",
    "        curl_easy_cleanup(curl);",
    "        fclose(fp);",
    "    \x7d",
    "",
    "    return 0;",
    "\x7d",
    ""
  ]

/-- Text of `helix/components/attack/defense_evasion/timestomp/utime/linux-utime.cpp`, one string per line. -/
def utimeFile : SourceFile where
  path := "helix/components/attack/defense_evasion/timestomp/utime/linux-utime.cpp"
  lines := [
    "#include <time.h>",
    "#include <utime.h>",
    "#include <sys/stat.h>",
    "",
    "int $\x7blinux_utime\x7d(int argv, char* argc[])\x7b",
    "    struct stat fstat;",
    "    struct tm tm;",
    "    struct utimbuf utimbuf;",
    "",
    "    strptime($\x7btimestamp\x7d, \"%Y-%m-%d %H:%M:%S\", &tm);",
    "",
    "    stat($\x7bpath\x7d, &fstat);",
    "",
    "    utimbuf.actime = fstat.st_atime;",
    "    utimbuf.modtime = mktime(&tm);",
    "",
    "    utime($\x7bpath\x7d, &utimbuf);",
    "",
    "    return 0;",
    "\x7d",
    ""
  ]

/-- Text of `helix/components/attack/discovery/query_registry/regqueryvalue/windows-registry-regqueryvalue.cpp`, one string per line. -/
def regqueryvalueFile : SourceFile where
  path := "helix/components/attack/discovery/query_registry/regqueryvalue/windows-registry-regqueryvalue.cpp"
  lines := [
    "#include <windows.h>",
    "#include <iostream>",
    "",
    "int $\x7bwindows_registry_regqueryvalue\x7d(int argc, char*argv[])",
    "\x7b",
    "    NTSTATUS status;",
    "\tHKEY hKey;",
    "    CHAR szBuffer[512];",
    "    DWORD dwBufferSize = sizeof(szBuffer);",
    "",
    "    status = RegOpenKeyEx($\x7bhive\x7d, $\x7bpath\x7d, 0, KEY_READ | KEY_WOW64_64KEY, &hKey);",
    "",
    "    if(status) \x7b",
    "        return 1;",
    "    \x7d",
    "",
    "    status = RegQueryValueEx(hKey, $\x7bkey\x7d, 0, NULL, (LPBYTE)szBuffer, &dwBufferSize);",
    "",
    "    if(status) \x7b",
    "        return 1;",
    "    \x7d",
    "",
    "    std::cout << szBuffer << std::endl;",
    "",
    "    return status;",
    "\x7d",
    ""
  ]

/-- Text of `helix/components/attack/exfiltration/data_compressed/zlib/linux-compress-zlib.cpp`, one string per line. -/
def compressFile : SourceFile where
  path := "helix/components/attack/exfiltration/data_compressed/zlib/linux-compress-zlib.cpp"
  lines := [
    "#include <stdio.h>",
    "#include <string.h>",
    "#include <zlib.h>",
    "",
    "#define CHUNK 1024",
    "",
    "int $\x7blinux_compress_zlib\x7d(int argv, char* argc[])\x7b",
    "    char buffer[CHUNK];",
    "",
    "    FILE *decompressed = fopen($\x7binput\x7d, \"rb\");",
    "",
    "    if(decompressed == NULL)",
    "        return 1;",
    "",
    "    gzFile compressed = gzopen($\x7boutput\x7d,\"wb\");",
    "",
    "    if(compressed == NULL)",
    "        return 1;",
    "",
    "    while(fgets(buffer, CHUNK, decompressed) != NULL)",
    "        gzwrite(compressed, buffer, strlen(buffer));",
    "",
    "    gzflush(compressed, Z_FULL_FLUSH);",
    "",
    "    fclose(decompressed);",
    "    gzclose(compressed);",
    "",
    "    return 0;",
    "\x7d",
    ""
  ]

/-- Text of `helix/components/attack/exfiltration/data_compressed/zlib/linux-decompress-zlib.cpp`, one string per line. -/
def decompressFile : SourceFile where
  path := "helix/components/attack/exfiltration/data_compressed/zlib/linux-decompress-zlib.cpp"
  lines := [
    "#include <stdio.h>",
    "#include <string.h>",
    "#include <zlib.h>",
    "",
    "#define CHUNK 1024",
    "",
    "int $\x7blinux_decompress_zlib\x7d(int argv, char* argc[])\x7b",
    "    char buffer[CHUNK];",
    "",
    "    gzFile compressed = gzopen($\x7binput\x7d,\"rb\");",
    "",
    "    if(compressed == NULL)",
    "        return 1;",
    "",
    "    FILE *decompressed = fopen($\x7boutput\x7d, \"wb\");",
    "",
    "    if(decompressed == NULL)",
    "        return 1;",
    "",
    "    while(!gzeof(compressed)) \x7b",
    "        int bytes = gzread(compressed, buffer, CHUNK);",
    "        fwrite(buffer, bytes, 1, decompressed);",
    "    \x7d",
    "",
    "    fflush(decompressed);",
    "",
    "    gzclose(compressed);",
    "    fclose(decompressed);",
    "",
    "    return 0;",
    "\x7d",
    ""
  ]

/-- Text of `helix/components/attack/exfiltration/data_encrypted/openssl/aes/linux-encrypt-openssl-aes.cpp`, one string per line. -/
def encryptFile : SourceFile where
  path := "helix/components/attack/exfiltration/data_encrypted/openssl/aes/linux-encrypt-openssl-aes.cpp"
  lines := [
    "#include <stdio.h>",
    "#include <string.h>",
    "#include <openssl/conf.h>",
    "#include <openssl/evp.h>",
    "#include <openssl/err.h>",
    "",
    "#define CHUNK 1024",
    "",
    "int $\x7blinux_encrypt_openssl_aes\x7d(int argv, char* argc[])\x7b",
    "    // https://wiki.openssl.org/index.php/EVP_Symmetric_Encryption_and_Decryption",
    "    int status;",
    "    int len;",
    "    size_t read;",
    "",
    "    unsigned char plaintext[CHUNK];",
    "    unsigned char ciphertext[CHUNK];",
    "",
    "    FILE *input = fopen($\x7binput\x7d, \"r\");",
    "",
    "    if(input == NULL)",
    "        return 1;",
    "",
    "    FILE *output = fopen($\x7boutput\x7d, \"wb\");",
    "",
    "    if(output == NULL)",
    "        return 1;",
    "",
    "    EVP_CIPHER_CTX *ctx = EVP_CIPHER_CTX_new();",
    "",
    "    if(ctx == NULL)",
    "        return 1;",
    "",
    "    status = EVP_EncryptInit_ex(ctx, EVP_aes_256_cbc(), NULL, (const unsigned char*)$\x7bkey\x7d, (const unsigned char*)$\x7biv\x7d);",
    "",
    "    if(status != 1)",
    "        return 1;",
    "",
    "    read = fread(plaintext, 1, CHUNK, input);",
    "    while(read > 0) \x7b",
    "        status = EVP_EncryptUpdate(ctx, ciphertext, &len, plaintext, read);",
    "",
    "        if(status != 1)",
    "            return 1;",
    "        ",
    "        fwrite(ciphertext, 1, len, output);",
    "",
    "        read = fread(plaintext, 1, CHUNK, input);",
    "    \x7d",
    "",
    "    status = EVP_EncryptFinal_ex(ctx, ciphertext, &len);",
    "",
    "    if(status != 1)",
    "        return 1;",
    "",
    "    fwrite(ciphertext, 1, len, output);",
    "",
    "    EVP_CIPHER_CTX_free(ctx);",
    "",
    "    fflush(output);",
    "",
    "    fclose(input);",
    "    fclose(output);",
    "",
    "    return 0;",
    "\x7d"
  ]

/-- Text of `helix/components/attack/exfiltration/data_encrypted/openssl/aes/linux-decrypt-openssl-aes.cpp`, one string per line. -/
def decryptFile : SourceFile where
  path := "helix/components/attack/exfiltration/data_encrypted/openssl/aes/linux-decrypt-openssl-aes.cpp"
  lines := [
    "#include <stdio.h>",
    "#include <string.h>",
    "#include <openssl/conf.h>",
    "#include <openssl/evp.h>",
    "#include <openssl/err.h>",
    "",
    "#define CHUNK 1024",
    "",
    "int $\x7blinux_decrypt_openssl_aes\x7d(int argv, char* argc[])\x7b",
    "    // https://wiki.openssl.org/index.php/EVP_Symmetric_Encryption_and_Decryption",
    "    int status;",
    "    int len;",
    "    size_t read;",
    "",
    "    unsigned char plaintext[CHUNK];",
    "    unsigned char ciphertext[CHUNK];",
    "",
    "    FILE *input = fopen($\x7binput\x7d, \"r\");",
    "",
    "    if(input == NULL)",
    "        return 1;",
    "",
    "    FILE *output = fopen($\x7boutput\x7d, \"wb\");",
    "",
    "    if(output == NULL)",
    "        return 1;",
    "",
    "    EVP_CIPHER_CTX *ctx = EVP_CIPHER_CTX_new();",
    "",
    "    if(ctx == NULL)",
    "        return 1;",
    "",
    "    status = EVP_DecryptInit_ex(ctx, EVP_aes_256_cbc(), NULL, (const unsigned char*)$\x7bkey\x7d, (const unsigned char*)$\x7biv\x7d);",
    "",
    "    if(status != 1)",
    "        return 1;",
    "",
    "    read = fread(ciphertext, 1, CHUNK, input);",
    "    while(read > 0) \x7b",
    "        status = EVP_DecryptUpdate(ctx, plaintext, &len, ciphertext, read);",
    "",
    "        if(status != 1)",
    "            return 1;",
    "",
    "        fwrite(plaintext, 1, len, output);",
    "",
    "        read = fread(ciphertext, 1, CHUNK, input);",
    "    \x7d",
    "",
    "    status = EVP_DecryptFinal_ex(ctx, plaintext, &len);",
    "",
    "    if(status != 1)",
    "        return 1;",
    "",
    "    fwrite(plaintext, 1, len, output);",
    "",
    "    EVP_CIPHER_CTX_free(ctx);",
    "",
    "    fflush(output);",
    "",
    "    fclose(input);",
    "    fclose(output);",
    "",
    "    return 0;",
    "\x7d",
    ""
  ]

/-- The eight template files of the catalog. -/
def catalog : List SourceFile :=
  [screenshotFile, downloadFile, utimeFile, regqueryvalueFile,
   compressFile, decompressFile, encryptFile, decryptFile]

/-- Name carried by an identifier or placeholder token. -/
def tokenName : Token → Option String
  | .ident n => some n
  | .hole n => some n
  | _ => none

def isHole : Token → Bool
  | .hole _ => true
  | _ => false

/-- Split a character list at every occurrence of `sep`. -/
def splitChars (sep : Char) : List Char → List (List Char)
  | [] => [[]]
  | c :: cs =>
    if c = sep then [] :: splitChars sep cs
    else match splitChars sep cs with
      | [] => [[c]]
      | w :: ws => (c :: w) :: ws

/-- File name without directories and without the extension, e.g. `linux-utime`. -/
def stem (f : SourceFile) : List Char :=
  ((splitChars '/' f.path.toList).getLastD []).takeWhile (· != '.')

/-- Name of the entry-point placeholder: the stem with `-` replaced by `_`. -/
def entryBase (f : SourceFile) : String :=
  String.mk ((stem f).map (fun c => if c = '-' then '_' else c))

/-- Defined functions that carry the file's own name: the entry point. -/
def entryPoints (f : SourceFile) : List Token :=
  (definedFunctions f).filter (fun t => tokenName t == some (entryBase f))

/-- Arguments of a call, given the tokens after its opening parenthesis: split at the
commas of nesting depth 0, up to the matching closing parenthesis. -/
def splitArgs : List Token → Nat → List Token → List (List Token) → List (List Token)
  | [], _, cur, acc => (cur.reverse :: acc).reverse
  | t :: ts, depth, cur, acc =>
    if t = .sym '(' then splitArgs ts (depth + 1) (t :: cur) acc
    else if t = .sym ')' then
      match depth with
      | 0 => (cur.reverse :: acc).reverse
      | d + 1 => splitArgs ts d (t :: cur) acc
    else if t = .sym ',' ∧ depth = 0 then splitArgs ts depth [] (cur.reverse :: acc)
    else splitArgs ts depth (t :: cur) acc

/-- Argument lists of every call of `callee` in a token sequence. -/
def calls (callee : String) : List Token → List (List (List Token))
  | [] => []
  | t :: rest =>
    (match t, rest with
      | .ident n, .sym '(' :: more => if n = callee then [splitArgs more 0 [] []] else []
      | _, _ => []) ++ calls callee rest

/-- Library calls that receive a module's operands, with the operand argument positions:
file paths (`fopen`, `gzopen`, `save_png`, `stat`, `utime`), the timestamp (`strptime`),
the registry hive, path and key, and the cipher key and IV. -/
def operandSites : List (String × List Nat) :=
  [("fopen", [0]), ("gzopen", [0]), ("save_png", [0]),
   ("strptime", [0]), ("stat", [0]), ("utime", [0]),
   ("RegOpenKeyEx", [0, 1]), ("RegQueryValueEx", [1]),
   ("EVP_EncryptInit_ex", [3, 4]), ("EVP_DecryptInit_ex", [3, 4])]

/-- Operand expressions of a file: the arguments at the `operandSites`, and the URL passed
to `curl_easy_setopt(curl, CURLOPT_URL, url)`. -/
def operands (f : SourceFile) : List (List Token) :=
  (operandSites.map (fun site =>
    ((calls site.1 (tokens f)).map (fun args => site.2.map (fun i => args.getD i []))).flatten)).flatten
  ++ (((calls "curl_easy_setopt" (tokens f)).filter
        (fun args => args.getD 1 [] == [.ident "CURLOPT_URL"])).map (fun args => args.getD 2 []))

/-- Drop a leading parenthesised cast such as `(const unsigned char*)`. -/
def stripCast : List Token → List Token
  | .sym '(' :: rest => (rest.dropWhile (· != .sym ')')).drop 1
  | e => e

/-- The operand expression is a single placeholder token, possibly behind a cast. -/
def isPlaceholderOperand (e : List Token) : Bool :=
  match stripCast e with
  | [.hole _] => true
  | _ => false

/-- String literals occurring in a file. -/
def stringLiterals (f : SourceFile) : List String :=
  (tokens f).filterMap (fun t => match t with | .str s => some s | _ => none)

/-- Keep the first occurrence of every element. -/
def keepFirst : List String → List String → List String
  | [], _ => []
  | x :: xs, seen => if x ∈ seen then keepFirst xs seen else x :: keepFirst xs (x :: seen)

/-- Placeholder names of a file in order of first occurrence. -/
def placeholders (f : SourceFile) : List String :=
  keepFirst ((tokens f).filterMap (fun t => match t with | .hole n => some n | _ => none)) []

end Helix.Catalog

namespace Helix.Engine

open Helix.Catalog

/-- Modelled from the spec: the target platform tag of a module (section 3); the engine's
data model is not among the source files. -/
inductive Platform where
  | linux
  | windows
  | agnostic
  deriving DecidableEq, Repr

/-- Modelled from the spec: the kinds a parameter schema assigns to placeholders
(section 3); the engine's data model is not among the source files. -/
inductive ParamKind where
  | stringLiteral
  | path
  | integer
  | bufferRef
  deriving DecidableEq, Repr

/-- Modelled from the spec: a registered technique module (section 3); the engine's data
model is not among the source files. `entry` names the implicit entry-point placeholder of
the template. -/
structure Module where
  id : String
  platform : Platform
  category : String
  template : String
  entry : String
  schema : List (String × ParamKind)
  includes : List String
  libraries : List String

/-- Modelled from the spec: a concrete value supplied by the chain request, with its
runtime kind (sections 3 and 4.2); the engine's data model is not among the source files. -/
structure Value where
  kind : ParamKind
  text : String
  deriving DecidableEq, Repr

/-- Modelled from the spec: the mapping from placeholder names to values (section 3); the
engine's data model is not among the source files. -/
abbrev ParameterBinding := List (String × Value)

/-- Modelled from the spec: the unit of composition, a module with its binding and the
entry-point suffix assigned to it (section 3); the engine's data model is not among the
source files. -/
structure ModuleInstance where
  module : Module
  binding : ParameterBinding
  suffix : Nat

/-- Modelled from the spec: the error taxonomy of section 7; the engine's error type is not
among the source files. -/
inductive EngineError where
  | ModuleNotFound
  | DuplicateModuleId
  | RegistryFrozen
  | MissingBinding (placeholderName : String)
  | UnknownPlaceholder (name : String)
  | KindMismatch
  | UnsafeValue
  | ForwardReference
  | PlatformConflict
  | ToolchainError (exitCode : Int) (diagnosticText : String)
  | Cancelled
  deriving DecidableEq, Repr

/-- Platform tag of a template file: the part of its name before the first `-`. -/
def platformOf (f : SourceFile) : Platform :=
  let tag := String.mk ((splitChars '-' (stem f)).headD [])
  if tag = "linux" then .linux
  else if tag = "windows" then .windows
  else .agnostic

/-- Tactic directory of a template file: the path component after `attack`. -/
def categoryOf (f : SourceFile) : String :=
  match (splitChars '/' f.path.toList).dropWhile (· != "attack".toList) with
  | _ :: c :: _ => String.mk c
  | _ => ""

/-- The module a template file registers as. Its id, platform, category, template text,
entry placeholder, placeholder names and includes are read off the file; placeholder kinds
and link libraries are not written in the template files and are supplied by the caller. -/
def catalogModule (f : SourceFile) (kinds : String → ParamKind) (libs : List String) : Module where
  id := String.mk (stem f)
  platform := platformOf f
  category := categoryOf f
  template := "\n".intercalate f.lines
  entry := entryBase f
  schema := ((placeholders f).filter (· != entryBase f)).map (fun n => (n, kinds n))
  includes := Catalog.includes f
  libraries := libs

/-- State of the placeholder substitution scan. -/
inductive SubstState where
  | text
  | dollar
  | name (acc : List Char)
  deriving DecidableEq, Repr

/-- Modelled from the spec: the substitution step of the renderer, which is not among the
source files: literal whole-token replacement of `${name}` by the text bound to `name`
(section 4.2); inserted text is not scanned again, and a placeholder without an entry in
`env` is left as it is. -/
def substituteChars (env : List (String × String)) : List Char → SubstState → List Char
  | [], .text => []
  | [], .dollar => ['$']
  | [], .name acc => '$' :: '\x7b' :: acc.reverse
  | c :: cs, .text =>
    if c = '$' then substituteChars env cs .dollar else c :: substituteChars env cs .text
  | c :: cs, .dollar =>
    if c = '\x7b' then substituteChars env cs (.name [])
    else if c = '$' then '$' :: substituteChars env cs .dollar
    else '$' :: c :: substituteChars env cs .text
  | c :: cs, .name acc =>
    if c = '\x7d' then
      (match env.lookup (String.mk acc.reverse) with
        | some v => v.toList
        | none => '$' :: '\x7b' :: (acc.reverse ++ ['\x7d'])) ++ substituteChars env cs .text
    else substituteChars env cs (.name (c :: acc))

/-- Modelled from the spec: the escaping step of the renderer, which is not among the source
files: the texts substituted for the bound values (section 4.2). `escape` is the quoting
rule of the target syntax, which the spec leaves open; it yields `none` for a value that
cannot be escaped. -/
def escapeAll (escape : Value → Option String) :
    ParameterBinding → Option (List (String × String))
  | [] => some []
  | (n, v) :: rest =>
    match escape v, escapeAll escape rest with
    | some t, some ts => some ((n, t) :: ts)
    | _, _ => none

/-- Modelled from the spec: `render(module, binding)` of section 4.2, whose code is not
among the source files. The checks run in the order the contract lists them. -/
def render (escape : Value → Option String) (m : Module) (b : ParameterBinding)
    (entryName : String) : Except EngineError String :=
  match m.schema.find? (fun p => (b.lookup p.1).isNone) with
  | some p => .error (.MissingBinding p.1)
  | none =>
    match b.find? (fun kv => (m.schema.lookup kv.1).isNone) with
    | some kv => .error (.UnknownPlaceholder kv.1)
    | none =>
      if b.any (fun kv => m.schema.lookup kv.1 != some kv.2.kind) then .error .KindMismatch
      else
        match escapeAll escape b with
        | none => .error .UnsafeValue
        | some env =>
          .ok (String.mk (substituteChars ((m.entry, entryName) :: env) m.template.toList .text))

/-- Modelled from the spec: the platform check of the resolver, which is not among the source
files: windows-only and linux-only modules are mutually exclusive (section 4.3). -/
def platformsConflict (a b : Platform) : Bool :=
  (a == .windows && b == .linux) || (a == .linux && b == .windows)

/-- Lexical order on character sequences (by code point). -/
def charsLt : List Char → List Char → Bool
  | [], [] => false
  | [], _ :: _ => true
  | _ :: _, [] => false
  | a :: as, b :: bs =>
    if a.toNat < b.toNat then true
    else if b.toNat < a.toNat then false
    else charsLt as bs

/-- Insert a name into a lexically sorted list unless it is already there. -/
def insertSorted (x : String) : List String → List String
  | [] => [x]
  | y :: ys =>
    if x = y then y :: ys
    else if charsLt x.toList y.toList then x :: y :: ys
    else y :: insertSorted x ys

/-- Modelled from the spec: the ordering step of the resolver, which is not among the source
files: the deduplicated set of names in lexical order (section 4.3). -/
def sortDedup (xs : List String) : List String :=
  xs.foldr insertSorted []

/-- Modelled from the spec: the result of dependency resolution (section 4.3); the resolver
is not among the source files. -/
structure Resolved where
  includes : List String
  libraries : List String
  deriving DecidableEq, Repr

/-- Modelled from the spec: `resolve(instances)` of section 4.3, whose code is not among
the source files. -/
def resolve (instances : List ModuleInstance) : Except EngineError Resolved :=
  if instances.any (fun a =>
      instances.any (fun b => platformsConflict a.module.platform b.module.platform)) then
    .error .PlatformConflict
  else
    .ok { includes := sortDedup (instances.map (·.module.includes)).flatten
          libraries := sortDedup (instances.map (·.module.libraries)).flatten }

/-- Modelled from the spec: `lookup(id)` of the module registry (section 4.1), whose code is
not among the source files. -/
def lookup (registry : List Module) (id : String) : Except EngineError Module :=
  match registry.find? (fun m => m.id == id) with
  | some m => .ok m
  | none => .error .ModuleNotFound

/-- Modelled from the spec: one step of a chain request (section 6); the request format is
not among the source files. -/
structure Step where
  moduleId : String
  params : ParameterBinding

/-- Modelled from the spec: step 1 of `assemble` (section 4.4), whose code is not among the
source files: every step's module is looked up and the instance receives its position in
the chain as suffix. -/
def instantiateFrom (registry : List Module) : Nat → List Step → Except EngineError (List ModuleInstance)
  | _, [] => .ok []
  | i, s :: rest =>
    match lookup registry s.moduleId, instantiateFrom registry (i + 1) rest with
    | .ok m, .ok tail => .ok ({ module := m, binding := s.params, suffix := i } :: tail)
    | .error e, _ => .error e
    | _, .error e => .error e

/-- Modelled from the spec: step 1 of `assemble` on a whole chain, numbering from 0; the
assembler is not among the source files. -/
def instantiate (registry : List Module) (steps : List Step) : Except EngineError (List ModuleInstance) :=
  instantiateFrom registry 0 steps

/-- Modelled from the spec: the unique name the assembler, which is not among the source
files, supplies for the entry-point placeholder of an instance (sections 4.2 and 4.4): the
placeholder's name followed by `_` and the decimal suffix. -/
def entryPointName (inst : ModuleInstance) : String :=
  inst.module.entry ++ "_" ++ toString inst.suffix

/-- Tokens of a rendered text, line by line. -/
def textTokens (text : String) : List Token :=
  ((splitChars '\n' text.toList).map (fun line => lexLine (String.mk line))).flatten

/-- A quoting rule that accepts every value and inserts its text unchanged. -/
def plainText (v : Value) : Option String := some v.text

/-- A complete binding for the utime template. -/
def utimeBinding : ParameterBinding :=
  [("timestamp", ⟨.path, "\"2020-01-01 00:00:00\""⟩), ("path", ⟨.path, "\"/tmp/a\""⟩)]

end Helix.Engine

namespace Helix.Compress

/-- `#define CHUNK 1024`. -/
def CHUNK : Nat := 1024

/-- The bytes `fgets` takes from the stream when the buffer has room for `room` of them:
it stops after a newline, at end of file, or when the room is used up. Returns the bytes
read and the rest of the stream. -/
def readLine : Nat → List UInt8 → List UInt8 × List UInt8
  | 0, s => ([], s)
  | _ + 1, [] => ([], [])
  | room + 1, b :: s =>
    if b = 10 then ([b], s)
    else ((b :: (readLine room s).1), (readLine room s).2)

/-- `fgets(buffer, size, stream)` for `size ≥ 2`: `none` is the `NULL` returned at end of
file; otherwise at most `size - 1` bytes are stored at the start of the buffer, followed
by a zero byte, and the rest of the buffer keeps its old content. -/
def fgets (buffer : List UInt8) (size : Nat) (stream : List UInt8) :
    Option (List UInt8 × List UInt8) :=
  if stream = [] then none
  else
    some ((readLine (size - 1) stream).1
            ++ 0 :: buffer.drop ((readLine (size - 1) stream).1.length + 1),
          (readLine (size - 1) stream).2)

/-- `strlen(buffer)`: the number of bytes before the first zero byte. -/
def strlen (buffer : List UInt8) : Nat :=
  (buffer.takeWhile (· != 0)).length

/-- The loop of lines 20-21. The result lists the blocks handed to `gzwrite`, in order;
`none` means the iteration budget `fuel` ran out before `fgets` returned `NULL`. -/
def copyLoop : Nat → List UInt8 → List UInt8 → Option (List (List UInt8))
  | 0, _, _ => none
  | fuel + 1, buffer, stream =>
    match fgets buffer CHUNK stream with
    | none => some []
    | some (buffer', stream') =>
      (copyLoop fuel buffer' stream').map (fun t => buffer'.take (strlen buffer') :: t)

/-- Lines 8-21 once both files are open: `buffer` is the content of the uninitialised
array `buffer`, `input` the content of the input file; the result lists the blocks handed
to `gzwrite`. -/
def linux_compress_zlib (fuel : Nat) (buffer input : List UInt8) : Option (List (List UInt8)) :=
  copyLoop fuel buffer input

end Helix.Compress

namespace Helix.Encrypt

/-- `#define CHUNK 1024`: the size of the `plaintext` and `ciphertext` arrays. -/
def CHUNK : Nat := 1024

/-- Block size of AES in bytes. -/
def blockSize : Nat := 16

/-- `fread(plaintext, 1, count, input)` on a file whose unread bytes are `stream`: the
bytes stored in `plaintext` and the bytes left unread. -/
def fread (count : Nat) (stream : List UInt8) : List UInt8 × List UInt8 :=
  (stream.take count, stream.drop count)

/-- `EVP_EncryptUpdate` of OpenSSL for a 16-byte block cipher, with `pending` bytes held
back in the context and `n` input bytes: it writes the whole blocks, `16 * ((p + n) / 16)`
bytes, and holds back `(p + n) % 16`. Returns the length written to the output buffer and
the number of bytes held back afterwards. -/
def EVP_EncryptUpdate (pending n : Nat) : Nat × Nat :=
  (blockSize * ((pending + n) / blockSize), (pending + n) % blockSize)

/-- `EVP_EncryptFinal_ex` of OpenSSL with padding enabled (the default): the held-back bytes
are padded up to the next block boundary; the result is the length written to the output
buffer, one block when fewer than 16 bytes are held back. -/
def EVP_EncryptFinal_ex (pending : Nat) : Nat :=
  blockSize * (pending / blockSize + 1)

/-- What one run of the module does with its buffers: `updates` lists, in order, the
plaintext block passed to each `EVP_EncryptUpdate` call with the length the call wrote to
`ciphertext`; `finalLen` is the length `EVP_EncryptFinal_ex` wrote to `ciphertext`. -/
structure Trace where
  updates : List (List UInt8 × Nat)
  finalLen : Nat

/-- The loop of lines 39-48, entered with the block `read` of the latest `fread`.
Returns the update calls made and the bytes held back at the end; `none` means the
iteration budget `fuel` ran out before `fread` returned 0. -/
def updateLoop : Nat → List UInt8 → List UInt8 → Nat → Option (List (List UInt8 × Nat) × Nat)
  | 0, _, _, _ => none
  | fuel + 1, read, stream, pending =>
    if read.length > 0 then
      (updateLoop fuel (fread CHUNK stream).1 (fread CHUNK stream).2
          (EVP_EncryptUpdate pending read.length).2).map
        (fun r => ((read, (EVP_EncryptUpdate pending read.length).1) :: r.1, r.2))
    else some ([], pending)

/-- Lines 38-55 on an input file with content `input`, when every library call succeeds. -/
def linux_encrypt_openssl_aes (fuel : Nat) (input : List UInt8) : Option Trace :=
  (updateLoop fuel (fread CHUNK input).1 (fread CHUNK input).2 0).map
    (fun r => { updates := r.1, finalLen := EVP_EncryptFinal_ex r.2 })

end Helix.Encrypt

namespace Helix.Screenshot

/-- Conversion of an `unsigned long` value to `unsigned char` (keeps the low 8 bits). -/
def toUChar (v : Nat) : Nat := v % 256

/-- The part of an `XImage` the module reads: the three channel masks and `XGetPixel`. -/
structure XImage where
  red_mask : Nat
  green_mask : Nat
  blue_mask : Nat
  XGetPixel : Nat → Nat → Nat

/-- Pixel storage of `CImg<unsigned char>`; `none` marks a byte no statement has assigned. -/
abbrev Buffer := Nat → Option Nat

/-- Linear index of `img(x, y, z, c)` in a `CImg` of the given width, height and depth:
`x + y*width + z*width*height + c*width*height*depth`. -/
def cimgOffset (width height depth x y z c : Nat) : Nat :=
  x + y * width + z * (width * height) + c * (width * height * depth)

/-- Assignment `screenshot(x, y, k) = v` on the image built by
`CImg<unsigned char> screenshot(array, Width, Height, 1, 3)`: the three-argument call is
`operator()(x, y, z)` with `z = k` and the default `c = 0`, on an image of depth 1. -/
def store (buf : Buffer) (width height x y k v : Nat) : Buffer :=
  fun i => if i = cimgOffset width height 1 x y k 0 then some v else buf i

/-- Position of channel `c` of the pixel `(x, y)` in the saved image: `img(x, y, 0, c)`. -/
def offset (width height x y c : Nat) : Nat := cimgOffset width height 1 x y 0 c

/-- Body of the inner loop (lines 38-46). -/
def pixelBody (img : XImage) (width height x y : Nat) (buf : Buffer) : Buffer :=
  let pixel := img.XGetPixel x y
  let blue := toUChar (pixel &&& img.blue_mask)
  let green := toUChar ((pixel &&& img.green_mask) >>> 8)
  let red := toUChar ((pixel &&& img.red_mask) >>> 16)
  let buf := store buf width height x y 0 red
  let buf := store buf width height x y 1 green
  store buf width height x y 2 blue

/-- Inner loop `for(int y = 0; y < Height; y++)`. -/
def columnLoop (img : XImage) (width height x : Nat) (buf : Buffer) : Buffer :=
  (List.range height).foldl (fun b y => pixelBody img width height x y b) buf

/-- Outer loop `for(int x = 0; x < Width; x++)`: the buffer handed to `save_png`. -/
def linux_screenshot_xlib (img : XImage) (width height : Nat) (buf : Buffer) : Buffer :=
  (List.range width).foldl (fun b x => columnLoop img width height x b) buf

/-- Channel value the module computes for channel `c` of a pixel. -/
def channel (img : XImage) (c pixel : Nat) : Nat :=
  match c with
  | 0 => toUChar ((pixel &&& img.red_mask) >>> 16)
  | 1 => toUChar ((pixel &&& img.green_mask) >>> 8)
  | _ => toUChar (pixel &&& img.blue_mask)

/-- An image with the usual 24-bit masks whose pixel at `(x, y)` is `0x102030 + x + 256 * y`. -/
def sampleImage : XImage where
  red_mask := 0xFF0000
  green_mask := 0x00FF00
  blue_mask := 0x0000FF
  XGetPixel := fun x y => 0x102030 + x + 256 * y

end Helix.Screenshot

namespace Helix.Catalog

/-- The functions each template defines, file by file. -/
theorem definedFunctions_catalog :
    catalog.map definedFunctions =
      [[.hole "linux_screenshot_xlib"],
       [.hole "write_data", .hole "linux_download_libcurl"],
       [.hole "linux_utime"],
       [.hole "windows_registry_regqueryvalue"],
       [.hole "linux_compress_zlib"],
       [.hole "linux_decompress_zlib"],
       [.hole "linux_encrypt_openssl_aes"],
       [.hole "linux_decrypt_openssl_aes"]] := by
  decide!

/-- The operand expressions of each template with casts removed, file by file. -/
theorem operands_catalog :
    catalog.map (fun f => (operands f).map stripCast) =
      [[[.hole "output"]],
       [[.hole "output"], [.hole "url"]],
       [[.hole "timestamp"], [.hole "path"], [.hole "path"]],
       [[.hole "hive"], [.hole "path"], [.hole "key"]],
       [[.hole "input"], [.hole "output"]],
       [[.hole "output"], [.hole "input"]],
       [[.hole "input"], [.hole "output"], [.hole "key"], [.hole "iv"]],
       [[.hole "input"], [.hole "output"], [.hole "key"], [.hole "iv"]]] := by
  decide!

/-- The scanner covers what the templates use: no file has an apostrophe (so no character
literal), and no `/` or `$` is left over as a symbol (every `/` outside a string or
preprocessor line starts a `//` comment, every `$` starts a placeholder). -/
theorem catalog_scanner_adequate :
    ∀ f ∈ catalog,
      (∀ line ∈ f.lines, Char.ofNat 39 ∉ line.toList)
      ∧ Token.sym '/' ∉ tokens f
      ∧ Token.sym '$' ∉ tokens f := by
  decide!

/-- Checks of the templated shape, as one decidable statement over the catalog. -/
theorem catalog_templated_all :
    ∀ f ∈ catalog,
      entryPoints f = [.hole (entryBase f)]
      ∧ (∀ t ∈ definedFunctions f, isHole t = true)
      ∧ operands f ≠ []
      ∧ (∀ e ∈ operands f, isPlaceholderOperand e = true)
      ∧ (∀ s ∈ stringLiterals f, s ∈ ["r", "rb", "wb", "%Y-%m-%d %H:%M:%S"]) := by
  decide!

/-- Function definitions of every template, as one decidable statement over the catalog. -/
theorem catalog_definitions_all :
    ∀ f ∈ catalog,
      (definedFunctions f).filter (fun t => tokenName t == some (entryBase f))
          = [.hole (entryBase f)]
      ∧ definedFunctions f =
          if f.path = downloadFile.path then [.hole "write_data", .hole (entryBase f)]
          else [.hole (entryBase f)] := by
  decide!

/-- C1: in each of the eight template files of the catalog the entry-point function is
named by a placeholder token, and every operand the module works on (file paths, URL,
timestamp, registry hive, path and key, cipher key and IV) is a placeholder token; the only
string literals in the files are `fopen`/`gzopen` modes and the `strptime` format, so no
file has a concrete entry-point identifier or a hard-coded literal operand. -/
theorem catalog_entry_points_and_operands_are_placeholders (f : SourceFile) (hf : f ∈ catalog) :
    catalog.length = 8
    ∧ entryPoints f = [.hole (entryBase f)]
    ∧ (∀ t ∈ definedFunctions f, isHole t = true)
    ∧ operands f ≠ []
    ∧ (∀ e ∈ operands f, isPlaceholderOperand e = true)
    ∧ (∀ s ∈ stringLiterals f, s ∈ ["r", "rb", "wb", "%Y-%m-%d %H:%M:%S"]) :=
  ⟨rfl, catalog_templated_all f hf⟩

theorem catalog_entry_points_and_operands_are_placeholders_witness :
    entryPoints encryptFile = [.hole "linux_encrypt_openssl_aes"]
    ∧ (operands encryptFile).map stripCast
        = [[.hole "input"], [.hole "output"], [.hole "key"], [.hole "iv"]]
    ∧ ∀ e ∈ operands encryptFile, isPlaceholderOperand e = true :=
  have h := catalog_entry_points_and_operands_are_placeholders encryptFile (by simp [catalog])
  ⟨h.2.1, by decide!, h.2.2.2.2.1⟩

/-- C6, as the code has it: every template file defines its placeholder-named entry point
exactly once; the download template defines one more function before it, the
placeholder-named write callback, and each of the other seven files defines no other
function. -/
theorem catalog_function_definitions (f : SourceFile) (hf : f ∈ catalog) :
    (definedFunctions f).filter (fun t => tokenName t == some (entryBase f))
        = [.hole (entryBase f)]
    ∧ definedFunctions f =
        if f.path = downloadFile.path then [.hole "write_data", .hole (entryBase f)]
        else [.hole (entryBase f)] :=
  catalog_definitions_all f hf

theorem catalog_function_definitions_witness :
    definedFunctions compressFile = [.hole "linux_compress_zlib"] :=
  (catalog_function_definitions compressFile (by simp [catalog])).2.trans (by decide!)

/-- C6 fails as stated: the download template is a file of the catalog and defines two
functions, so it does not define exactly one. -/
theorem download_defines_two_functions :
    downloadFile ∈ catalog
    ∧ definedFunctions downloadFile = [.hole "write_data", .hole "linux_download_libcurl"]
    ∧ ¬ ((definedFunctions downloadFile).length = 1) := by
  refine ⟨by simp [catalog], by decide!, by decide!⟩

end Helix.Catalog

namespace Helix.Engine

open Helix.Catalog

theorem digitChar_toNat (d : Nat) (h : d < 10) : (Nat.digitChar d).toNat - 48 = d := by
  interval_cases d <;> rfl

theorem digitChar_ne_underscore (d : Nat) (h : d < 10) : Nat.digitChar d ≠ '_' := by
  interval_cases d <;> decide

theorem toDigitsCore_eq (fuel n : Nat) (ds : List Char) (hn : 0 < n) (hf : n < fuel) :
    Nat.toDigitsCore 10 fuel n ds = ((Nat.digits 10 n).map Nat.digitChar).reverse ++ ds := by
  induction fuel generalizing n ds with
  | zero => omega
  | succ f ih =>
    rw [Nat.toDigitsCore, Nat.digits_def' (by norm_num) hn]
    by_cases h0 : n / 10 = 0
    · simp [h0]
    · rw [if_neg h0, ih (n / 10) _ (Nat.pos_of_ne_zero h0) (by omega)]
      simp

/-- The decimal text of a number is the reversed list of its digits, and `0` for zero. -/
theorem toDigits_eq (n : Nat) :
    Nat.toDigits 10 n
      = if n = 0 then ['0'] else ((Nat.digits 10 n).map Nat.digitChar).reverse := by
  by_cases h : n = 0
  · subst h; rfl
  · rw [if_neg h, Nat.toDigits, toDigitsCore_eq _ _ _ (Nat.pos_of_ne_zero h) (by omega)]
    simp

theorem map_digitChar_inj (a b : List Nat) (ha : ∀ d ∈ a, d < 10) (hb : ∀ d ∈ b, d < 10)
    (h : a.map Nat.digitChar = b.map Nat.digitChar) : a = b := by
  have key : ∀ l : List Nat, (∀ d ∈ l, d < 10) →
      (l.map Nat.digitChar).map (fun c => c.toNat - 48) = l := by
    intro l hl
    rw [List.map_map]
    conv_rhs => rw [← List.map_id l]
    exact List.map_congr_left (fun d hd => digitChar_toNat d (hl d hd))
  rw [← key a ha, ← key b hb, h]

theorem toDigits_inj (i j : Nat) (h : Nat.toDigits 10 i = Nat.toDigits 10 j) : i = j := by
  have lt : ∀ n d, d ∈ Nat.digits 10 n → d < 10 := fun n d hd => Nat.digits_lt_base (by norm_num) hd
  have nonzero : ∀ n, n ≠ 0 → ((Nat.digits 10 n).map Nat.digitChar).reverse ≠ ['0'] := by
    intro n hn e
    have e' := congrArg List.reverse e
    rw [List.reverse_reverse] at e'
    have hd : Nat.digits 10 n = [0] :=
      map_digitChar_inj _ [0] (lt n) (by simp) (by simpa using e')
    have := Nat.getLast_digit_ne_zero 10 hn
    simp [hd] at this
  rw [toDigits_eq, toDigits_eq] at h
  by_cases hi : i = 0 <;> by_cases hj : j = 0
  · rw [hi, hj]
  · rw [if_pos hi, if_neg hj] at h
    exact absurd h.symm (nonzero j hj)
  · rw [if_neg hi, if_pos hj] at h
    exact absurd h (nonzero i hi)
  · rw [if_neg hi, if_neg hj] at h
    exact Nat.digits_inj_iff.mp (map_digitChar_inj _ _ (lt i) (lt j) (List.reverse_injective h))

theorem underscore_not_mem_toDigits (n : Nat) : '_' ∉ Nat.toDigits 10 n := by
  rw [toDigits_eq]
  split
  · decide
  · intro h
    rw [List.mem_reverse, List.mem_map] at h
    obtain ⟨d, hd, e⟩ := h
    exact digitChar_ne_underscore d (Nat.digits_lt_base (by norm_num) hd) e

theorem append_cons_left_inj {α : Type} (l₁ l₂ r₁ r₂ : List α) (a : α) (h₁ : a ∉ l₁)
    (h₂ : a ∉ l₂) (h : l₁ ++ a :: r₁ = l₂ ++ a :: r₂) : l₁ = l₂ := by
  induction l₁ generalizing l₂ with
  | nil =>
    cases l₂ with
    | nil => rfl
    | cons y l₂ =>
      simp only [List.nil_append, List.cons_append, List.cons.injEq] at h
      exact absurd (List.mem_cons_self y l₂) (h.1 ▸ h₂)
  | cons x l₁ ih =>
    cases l₂ with
    | nil =>
      simp only [List.nil_append, List.cons_append, List.cons.injEq] at h
      exact absurd (List.mem_cons_self x l₁) (h.1 ▸ h₁)
    | cons y l₂ =>
      simp only [List.cons_append, List.cons.injEq] at h
      rw [h.1, ih l₂ (fun m => h₁ (List.mem_cons_of_mem _ m))
        (fun m => h₂ (List.mem_cons_of_mem _ m)) h.2]

/-- Two entry-point names are equal only if their suffixes are, whatever the placeholder
names they start with. -/
theorem entryPointName_suffix (a b : ModuleInstance)
    (h : entryPointName a = entryPointName b) : a.suffix = b.suffix := by
  have h' := congrArg String.data h
  simp only [entryPointName, String.data_append, toString, Nat.repr, List.asString,
    List.append_assoc] at h'
  have r := congrArg List.reverse h'
  simp only [List.reverse_append, List.reverse_cons, List.reverse_nil, List.nil_append,
    List.append_assoc, List.singleton_append] at r
  have key := append_cons_left_inj _ _ _ _ _
    (by simpa using underscore_not_mem_toDigits a.suffix)
    (by simpa using underscore_not_mem_toDigits b.suffix) r
  exact toDigits_inj _ _ (List.reverse_injective key)

theorem instantiateFrom_suffixes (registry : List Module) (i : Nat) (steps : List Step)
    (insts : List ModuleInstance) (h : instantiateFrom registry i steps = .ok insts) :
    insts.map (·.suffix) = List.range' i steps.length := by
  induction steps generalizing i insts with
  | nil =>
    simp only [instantiateFrom, Except.ok.injEq] at h
    simp [← h]
  | cons s rest ih =>
    simp only [instantiateFrom] at h
    split at h
    · rename_i m tail hm ht
      simp only [Except.ok.injEq] at h
      subst h
      simp [List.range', ih (i + 1) tail ht]
    · simp at h
    · simp at h

theorem entryPointNames_nodup (registry : List Module) (steps : List Step)
    (insts : List ModuleInstance) (h : instantiate registry steps = .ok insts) :
    (insts.map entryPointName).Nodup := by
  have hs : (insts.map (·.suffix)).Nodup := by
    rw [instantiateFrom_suffixes registry 0 steps insts h]
    exact List.nodup_range' _ _
  rw [List.Nodup, List.pairwise_map] at hs ⊢
  exact hs.imp (fun hne e => hne (entryPointName_suffix _ _ e))

theorem mem_insertSorted (x z : String) (l : List String) :
    z ∈ insertSorted x l ↔ z = x ∨ z ∈ l := by
  induction l with
  | nil => simp [insertSorted]
  | cons y ys ih =>
    simp only [insertSorted]
    split
    · rename_i e
      subst e
      simp
    · split
      · simp
      · simp only [List.mem_cons, ih]
        tauto

/-- The resolved names are exactly the names given. -/
theorem mem_sortDedup (z : String) (xs : List String) : z ∈ sortDedup xs ↔ z ∈ xs := by
  induction xs with
  | nil => simp [sortDedup]
  | cons x xs ih =>
    simp only [sortDedup, List.foldr_cons] at ih ⊢
    rw [mem_insertSorted, ih, List.mem_cons]

theorem charsLt_irrefl (a : List Char) : charsLt a a = false := by
  induction a with
  | nil => rfl
  | cons c cs ih => simp [charsLt, ih]

theorem charsLt_trans (a b c : List Char) (h₁ : charsLt a b = true) (h₂ : charsLt b c = true) :
    charsLt a c = true := by
  induction a generalizing b c with
  | nil =>
    cases b with
    | nil => simp [charsLt] at h₁
    | cons y b =>
      cases c with
      | nil => simp [charsLt] at h₂
      | cons z c => rfl
  | cons x a ih =>
    cases b with
    | nil => simp [charsLt] at h₁
    | cons y b =>
      cases c with
      | nil => simp [charsLt] at h₂
      | cons z c =>
        simp only [charsLt] at h₁ h₂ ⊢
        split_ifs at h₁ h₂ ⊢ with p q r s t u
        all_goals first
          | rfl
          | omega
          | exact ih b c h₁ h₂

theorem charsLt_total (a b : List Char) (h : charsLt a b = false) (hne : a ≠ b) :
    charsLt b a = true := by
  induction a generalizing b with
  | nil =>
    cases b with
    | nil => exact absurd rfl hne
    | cons y b => simp [charsLt] at h
  | cons x a ih =>
    cases b with
    | nil => rfl
    | cons y b =>
      simp only [charsLt] at h ⊢
      split_ifs at h ⊢ with p q
      · rfl
      · have hxy : x.toNat = y.toNat := by omega
        have e : x = y := Char.ext (UInt32.ext hxy)
        subst e
        exact ih b h (fun e => hne (by rw [e]))

/-- Names listed by `sortDedup` are in strictly increasing lexical order. -/
theorem sortDedup_sorted (xs : List String) :
    (sortDedup xs).Pairwise (fun a b => charsLt a.toList b.toList = true) := by
  have ins : ∀ (x : String) (l : List String),
      l.Pairwise (fun a b => charsLt a.toList b.toList = true) →
      (insertSorted x l).Pairwise (fun a b => charsLt a.toList b.toList = true) := by
    intro x l hl
    induction l with
    | nil => simp [insertSorted]
    | cons y ys ih =>
      rw [List.pairwise_cons] at hl
      simp only [insertSorted]
      split
      · exact List.pairwise_cons.mpr hl
      · rename_i hxy
        split
        · rename_i hlt
          refine List.pairwise_cons.mpr ⟨?_, List.pairwise_cons.mpr hl⟩
          intro z hz
          rcases List.mem_cons.mp hz with e | e
          · rw [e]; exact hlt
          · exact charsLt_trans _ _ _ hlt (hl.1 z e)
        · rename_i hlt
          refine List.pairwise_cons.mpr ⟨?_, ih hl.2⟩
          intro z hz
          rcases (mem_insertSorted x z ys).mp hz with e | e
          · rw [e]
            exact charsLt_total _ _ (by simpa using hlt)
              (fun e => hxy (String.ext e))
          · exact hl.1 z e
  induction xs with
  | nil => simp [sortDedup]
  | cons x xs ih => exact ins x _ ih

/-- No name is listed twice by `sortDedup`. -/
theorem sortDedup_nodup (xs : List String) : (sortDedup xs).Nodup :=
  (sortDedup_sorted xs).imp (fun h e => by rw [e, charsLt_irrefl] at h; exact absurd h (by decide))

theorem platform_regqueryvalue (kinds : String → ParamKind) (libs : List String) :
    (catalogModule regqueryvalueFile kinds libs).platform = .windows := by
  show platformOf regqueryvalueFile = .windows
  decide!

theorem platform_utime (kinds : String → ParamKind) (libs : List String) :
    (catalogModule utimeFile kinds libs).platform = .linux := by
  show platformOf utimeFile = .linux
  decide!

theorem platform_screenshot_compress :
    platformOf screenshotFile = .linux ∧ platformOf compressFile = .linux := by
  decide!

theorem includes_screenshot_compress :
    sortDedup (Catalog.includes screenshotFile ++ Catalog.includes compressFile)
      = ["CImg.h", "X11/Xlib.h", "X11/Xutil.h", "cstdint", "cstring", "stdio.h", "string.h",
         "vector", "zlib.h"] := by
  decide!

/-- Rendering the utime template under a complete binding: the text defines the function
under the supplied name and has no placeholder left. -/
theorem render_utime_example :
    (match render plainText (catalogModule utimeFile (fun _ => .path) []) utimeBinding
        "linux_utime_0" with
      | .ok text => some (scanDefs (textTokens text) {}, (textTokens text).filter isHole)
      | .error _ => none)
      = some ([.ident "linux_utime_0"], []) := by
  decide!

/-- C2: a chain whose instances include a windows-tagged module and a linux-tagged module
is rejected by `resolve` with `PlatformConflict`; the result is an error and carries no
include or library set. -/
theorem resolve_mixed_platforms_conflict (instances : List ModuleInstance)
    (hw : ∃ a ∈ instances, a.module.platform = .windows)
    (hl : ∃ b ∈ instances, b.module.platform = .linux) :
    resolve instances = .error .PlatformConflict := by
  obtain ⟨a, ha, hwa⟩ := hw
  obtain ⟨b, hb, hlb⟩ := hl
  unfold resolve
  rw [if_pos]
  rw [List.any_eq_true]
  refine ⟨a, ha, ?_⟩
  rw [List.any_eq_true]
  exact ⟨b, hb, by rw [hwa, hlb]; rfl⟩

theorem resolve_mixed_platforms_conflict_witness :
    resolve
        [{ module := catalogModule regqueryvalueFile (fun _ => .stringLiteral) ["advapi32"],
           binding := [], suffix := 0 },
         { module := catalogModule utimeFile (fun _ => .path) [], binding := [], suffix := 1 }]
      = .error .PlatformConflict :=
  resolve_mixed_platforms_conflict _
    ⟨_, List.mem_cons_self _ _, platform_regqueryvalue _ _⟩
    ⟨_, List.mem_cons_of_mem _ (List.mem_cons_self _ _), platform_utime _ _⟩

/-- C5: when the binding has no value for some placeholder of the module's schema, `render`
fails with `MissingBinding` for such a placeholder; the result is an error and carries no
rendered text. -/
theorem render_missing_binding (escape : Value → Option String) (m : Module)
    (b : ParameterBinding) (entryName : String)
    (h : ∃ p ∈ m.schema, b.lookup p.1 = none) :
    ∃ name, render escape m b entryName = .error (.MissingBinding name)
      ∧ name ∈ m.schema.map Prod.fst ∧ b.lookup name = none := by
  obtain ⟨p, hp, hnone⟩ := h
  unfold render
  cases hfind : m.schema.find? (fun p => (b.lookup p.1).isNone) with
  | none =>
    rw [List.find?_eq_none] at hfind
    exact absurd (by simp [hnone]) (hfind p hp)
  | some q =>
    refine ⟨q.1, rfl, List.mem_map_of_mem _ (List.mem_of_find?_eq_some hfind), ?_⟩
    have := List.find?_some hfind
    simpa using this

theorem render_missing_binding_witness :
    ∃ name,
      render plainText (catalogModule encryptFile (fun _ => .path) ["crypto"])
          [("input", ⟨.path, "\"/tmp/a.gz\""⟩), ("output", ⟨.path, "\"/tmp/a.enc\""⟩),
           ("key", ⟨.path, "\"0123456789abcdef0123456789abcdef\""⟩)]
          "linux_encrypt_openssl_aes_0"
        = .error (.MissingBinding name)
      ∧ name ∈ (catalogModule encryptFile (fun _ => .path) ["crypto"]).schema.map Prod.fst
      ∧ List.lookup name
          [("input", (⟨.path, "\"/tmp/a.gz\""⟩ : Value)), ("output", ⟨.path, "\"/tmp/a.enc\""⟩),
           ("key", ⟨.path, "\"0123456789abcdef0123456789abcdef\""⟩)] = none :=
  render_missing_binding _ _ _ _ ⟨("iv", .path), by decide!, by decide!⟩

/-- C7: for the chain of the screenshot module followed by the compress module, `resolve`
succeeds and its include list is the deduplicated union of the include lines of the two
templates: a header is listed exactly when one of the two files includes it, no header is
listed twice, and `X11/Xlib.h`, `X11/Xutil.h` and `zlib.h` each occur exactly once. -/
theorem resolve_screenshot_compress (kinds₁ kinds₂ : String → ParamKind)
    (libs₁ libs₂ : List String) (b₁ b₂ : ParameterBinding) (s₁ s₂ : Nat) :
    ∃ r, resolve
          [{ module := catalogModule screenshotFile kinds₁ libs₁, binding := b₁, suffix := s₁ },
           { module := catalogModule compressFile kinds₂ libs₂, binding := b₂, suffix := s₂ }]
        = .ok r
      ∧ r.includes = ["CImg.h", "X11/Xlib.h", "X11/Xutil.h", "cstdint", "cstring", "stdio.h",
          "string.h", "vector", "zlib.h"]
      ∧ (∀ header, header ∈ r.includes ↔
          header ∈ Catalog.includes screenshotFile ∨ header ∈ Catalog.includes compressFile)
      ∧ r.includes.Nodup
      ∧ r.includes.count "X11/Xlib.h" = 1
      ∧ r.includes.count "X11/Xutil.h" = 1
      ∧ r.includes.count "zlib.h" = 1 := by
  have hinc : sortDedup ([Catalog.includes screenshotFile, Catalog.includes compressFile].flatten)
      = sortDedup (Catalog.includes screenshotFile ++ Catalog.includes compressFile) := by
    simp
  refine ⟨{ includes := sortDedup (Catalog.includes screenshotFile ++ Catalog.includes compressFile),
            libraries := sortDedup (libs₁ ++ libs₂) }, ?_, includes_screenshot_compress, ?_,
          sortDedup_nodup _, ?_, ?_, ?_⟩
  · unfold resolve
    rw [if_neg]
    · simp [catalogModule]
    · simp [catalogModule, platformsConflict, platform_screenshot_compress.1,
        platform_screenshot_compress.2]
  · intro header
    rw [mem_sortDedup, List.mem_append]
  · show (sortDedup _).count _ = 1
    rw [includes_screenshot_compress]; decide
  · show (sortDedup _).count _ = 1
    rw [includes_screenshot_compress]; decide
  · show (sortDedup _).count _ = 1
    rw [includes_screenshot_compress]; decide

end Helix.Engine

namespace Helix.Compress

theorem readLine_append (room : Nat) (s : List UInt8) :
    (readLine room s).1 ++ (readLine room s).2 = s := by
  induction room generalizing s with
  | zero => simp [readLine]
  | succ n ih =>
    cases s with
    | nil => simp [readLine]
    | cons b s =>
      simp only [readLine]
      split
      · simp
      · simp [ih s]

theorem readLine_ne_nil (room : Nat) (b : UInt8) (s : List UInt8) :
    (readLine (room + 1) (b :: s)).1 ≠ [] := by
  simp only [readLine]
  split <;> simp

theorem takeWhile_append_stop {α : Type} (p : α → Bool) (l t : List α) (x : α)
    (hx : p x = false) : (l ++ x :: t).takeWhile p = l.takeWhile p := by
  induction l with
  | nil => simp [List.takeWhile, hx]
  | cons a l ih =>
    rw [List.cons_append, List.takeWhile_cons, List.takeWhile_cons, ih]

theorem take_length_takeWhile {α : Type} (p : α → Bool) (l : List α) :
    l.take (l.takeWhile p).length = l.takeWhile p := by
  induction l with
  | nil => simp
  | cons a l ih =>
    simp only [List.takeWhile]
    split
    · simp [ih]
    · simp

/-- The block handed to `gzwrite` after a successful `fgets` is the part of the bytes read
that precedes their first zero byte. -/
theorem block_eq (buffer : List UInt8) (r : List UInt8) :
    (r ++ 0 :: buffer).take (strlen (r ++ 0 :: buffer)) = r.takeWhile (· != 0) := by
  unfold strlen
  rw [take_length_takeWhile, takeWhile_append_stop _ _ _ _ (by decide)]

theorem takeWhile_length_le {α : Type} (p : α → Bool) (l : List α) :
    (l.takeWhile p).length ≤ l.length := by
  induction l with
  | nil => simp
  | cons a l ih =>
    simp only [List.takeWhile]
    split
    · simp only [List.length_cons]; omega
    · simp

theorem takeWhile_nonzero_eq (r : List UInt8) (h : (0 : UInt8) ∉ r) :
    r.takeWhile (· != 0) = r := by
  induction r with
  | nil => rfl
  | cons a r ih =>
    simp only [List.mem_cons, not_or] at h
    have ha : (a != 0) = true := by simpa [bne_iff_ne] using fun e => h.1 e.symm
    simp [List.takeWhile, ha, ih h.2]

theorem takeWhile_nonzero_lt (r : List UInt8) (h : (0 : UInt8) ∈ r) :
    (r.takeWhile (· != 0)).length < r.length := by
  induction r with
  | nil => simp at h
  | cons a r ih =>
    by_cases ha : a = 0
    · simp [List.takeWhile, ha]
    · have hr : (0 : UInt8) ∈ r := by
        rcases List.mem_cons.mp h with e | e
        · exact absurd e.symm ha
        · exact e
      have : (a != 0) = true := by simpa [bne_iff_ne] using ha
      simp [List.takeWhile, this]
      exact ih hr

theorem copyLoop_spec (fuel : Nat) (buffer stream : List UInt8) (hf : stream.length < fuel) :
    ∃ blocks, copyLoop fuel buffer stream = some blocks
      ∧ blocks.flatten.length ≤ stream.length
      ∧ ((0 : UInt8) ∉ stream → blocks.flatten = stream)
      ∧ ((0 : UInt8) ∈ stream → blocks.flatten.length < stream.length) := by
  induction fuel generalizing buffer stream with
  | zero => omega
  | succ n ih =>
    cases stream with
    | nil => exact ⟨[], by simp [copyLoop, fgets], by simp, by simp, by simp⟩
    | cons b s =>
      have happ := readLine_append (CHUNK - 1) (b :: s)
      have hne : (readLine (CHUNK - 1) (b :: s)).1 ≠ [] := readLine_ne_nil 1022 b s
      generalize hr : (readLine (CHUNK - 1) (b :: s)).1 = r at happ hne
      generalize hrest : (readLine (CHUNK - 1) (b :: s)).2 = rest at happ
      have hlen : r.length + rest.length = (b :: s).length := by rw [← happ]; simp
      have hrpos : 0 < r.length := List.length_pos.mpr hne
      obtain ⟨t, ht, hle, hno, hyes⟩ :=
        ih (r ++ 0 :: buffer.drop (r.length + 1)) rest (by simp at hlen hf; omega)
      refine ⟨r.takeWhile (· != 0) :: t, ?_, ?_, ?_, ?_⟩
      · simp only [copyLoop, fgets, hr, hrest]
        simp [ht, block_eq]
      · have := takeWhile_length_le (· != (0 : UInt8)) r
        simp only [List.flatten_cons, List.length_append]
        omega
      · intro h0
        rw [← happ] at h0
        simp only [List.mem_append, not_or] at h0
        rw [List.flatten_cons, takeWhile_nonzero_eq r h0.1, hno h0.2, happ]
      · intro h0
        rw [← happ] at h0
        have h1 := takeWhile_length_le (· != (0 : UInt8)) r
        simp only [List.flatten_cons, List.length_append]
        rcases List.mem_append.mp h0 with h | h
        · have := takeWhile_nonzero_lt r h
          omega
        · have := hyes h
          omega

/-- A run on a five-byte file with a zero byte in its first line: the zero byte and the
rest of that line are not handed to `gzwrite`. -/
theorem linux_compress_zlib_example :
    linux_compress_zlib 6 (List.replicate CHUNK 0) [97, 0, 98, 10, 99] = some [[97], [99]] := by
  decide!

/-- C8: for every input the copy loop terminates (an iteration budget of one more than the
input length is enough), and the concatenation of the blocks handed to `gzwrite` equals the
input exactly when the input has no zero byte; with a zero byte in the input the
concatenation is strictly shorter than the input. -/
theorem compress_loop_copies_iff_no_zero_byte (input buffer : List UInt8) :
    ∃ blocks, linux_compress_zlib (input.length + 1) buffer input = some blocks
      ∧ (blocks.flatten = input ↔ (0 : UInt8) ∉ input)
      ∧ ((0 : UInt8) ∈ input → blocks.flatten.length < input.length) := by
  obtain ⟨blocks, hrun, _, hno, hyes⟩ :=
    copyLoop_spec (input.length + 1) buffer input (Nat.lt_succ_self _)
  refine ⟨blocks, hrun, ⟨?_, hno⟩, hyes⟩
  intro e h0
  have := hyes h0
  rw [e] at this
  exact Nat.lt_irrefl _ this

theorem compress_loop_copies_iff_no_zero_byte_witness :
    ∃ blocks, linux_compress_zlib 6 (List.replicate CHUNK 0) [97, 0, 98, 10, 99] = some blocks
      ∧ (blocks.flatten = [97, 0, 98, 10, 99] ↔ (0 : UInt8) ∉ [97, 0, 98, 10, 99])
      ∧ ((0 : UInt8) ∈ [97, 0, 98, 10, 99] → blocks.flatten.length < 5) :=
  compress_loop_copies_iff_no_zero_byte [97, 0, 98, 10, 99] (List.replicate CHUNK 0)

end Helix.Compress

namespace Helix.Encrypt

theorem update_len_le (pending n : Nat) (hp : pending < blockSize) (hn : n ≤ CHUNK) :
    (EVP_EncryptUpdate pending n).1 ≤ CHUNK := by
  simp only [EVP_EncryptUpdate, blockSize, CHUNK] at *
  omega

theorem update_pending_lt (pending n : Nat) : (EVP_EncryptUpdate pending n).2 < blockSize := by
  simp only [EVP_EncryptUpdate, blockSize]
  omega

theorem updateLoop_spec (fuel : Nat) (read stream : List UInt8) (pending : Nat)
    (hf : read.length + stream.length < fuel) (hr : read.length ≤ CHUNK)
    (hs : stream ≠ [] → read.length = CHUNK) (hp : pending < blockSize) :
    ∃ r, updateLoop fuel read stream pending = some r
      ∧ (r.1.map Prod.fst).flatten = read ++ stream
      ∧ (∀ u ∈ r.1, u.1.length ≤ CHUNK ∧ u.2 ≤ CHUNK)
      ∧ r.2 < blockSize := by
  induction fuel generalizing read stream pending with
  | zero => omega
  | succ n ih =>
    by_cases h0 : read.length > 0
    · have hlen : (fread CHUNK stream).1.length + (fread CHUNK stream).2.length = stream.length := by
        simp only [fread, List.length_take, List.length_drop]; omega
      obtain ⟨r, hrun, hcat, hbound, hpend⟩ :=
        ih (fread CHUNK stream).1 (fread CHUNK stream).2 (EVP_EncryptUpdate pending read.length).2
          (by omega) (by simp only [fread, List.length_take]; omega)
          (by
            intro hne
            have : CHUNK < stream.length := by
              by_contra hle
              exact hne (by simp only [fread]; exact List.drop_eq_nil_of_le (by omega))
            simp only [fread, List.length_take]; omega)
          (update_pending_lt _ _)
      refine ⟨((read, (EVP_EncryptUpdate pending read.length).1) :: r.1, r.2), ?_, ?_, ?_, hpend⟩
      · simp [updateLoop, h0, hrun]
      · simp only [List.map_cons, List.flatten_cons, hcat, fread, List.take_append_drop]
      · intro u hu
        rcases List.mem_cons.mp hu with e | e
        · subst e
          exact ⟨hr, update_len_le _ _ hp hr⟩
        · exact hbound u e
    · have hread : read = [] := List.length_eq_zero.mp (by omega)
      have hstream : stream = [] := by
        by_contra hne
        have := hs hne
        simp [CHUNK, hread] at this
      exact ⟨([], pending), by simp [updateLoop, h0], by simp [hread, hstream], by simp, hp⟩

/-- A run on a 1030-byte file: one full block, then the last six bytes. -/
theorem encrypt_example :
    (linux_encrypt_openssl_aes 1031 (List.replicate 1030 7)).map (fun t => (t.updates.map (fun u => (u.1.length, u.2)), t.finalLen))
      = some ([(1024, 1024), (6, 0)], 16) := by
  decide!

/-- C9: for every input the read loop terminates (an iteration budget of one more than the
input length is enough); every `EVP_EncryptUpdate` call receives at most `CHUNK` bytes and
writes at most `CHUNK` = 1024 bytes, the size of `ciphertext`; `EVP_EncryptFinal_ex` writes at
most 16 bytes; and the plaintext blocks passed, concatenated in order, are the input. -/
theorem encrypt_writes_fit_ciphertext_buffer (input : List UInt8) :
    ∃ t, linux_encrypt_openssl_aes (input.length + 1) input = some t
      ∧ (∀ u ∈ t.updates, u.1.length ≤ CHUNK ∧ u.2 ≤ 1024)
      ∧ t.finalLen ≤ 16
      ∧ (t.updates.map Prod.fst).flatten = input := by
  have hlen : (fread CHUNK input).1.length + (fread CHUNK input).2.length = input.length := by
    simp only [fread, List.length_take, List.length_drop]; omega
  obtain ⟨r, hrun, hcat, hbound, hpend⟩ :=
    updateLoop_spec (input.length + 1) (fread CHUNK input).1 (fread CHUNK input).2 0
      (by omega) (by simp only [fread, List.length_take]; omega)
      (by
        intro hne
        have : CHUNK < input.length := by
          by_contra hle
          exact hne (by simp only [fread]; exact List.drop_eq_nil_of_le (by omega))
        simp only [fread, List.length_take]; omega)
      (by decide)
  refine ⟨{ updates := r.1, finalLen := EVP_EncryptFinal_ex r.2 }, ?_, hbound, ?_, ?_⟩
  · simp [linux_encrypt_openssl_aes, hrun]
  · simp only [EVP_EncryptFinal_ex, blockSize] at hpend ⊢
    omega
  · simpa [fread] using hcat

end Helix.Encrypt

namespace Helix.Screenshot

theorem store_offset (width height x y k : Nat) :
    cimgOffset width height 1 x y k 0 = offset width height x y k := by
  simp only [cimgOffset, offset]
  ring

theorem offset_inj {w h x y c x' y' c' : Nat} (hx : x < w) (hx' : x' < w) (hy : y < h)
    (hy' : y' < h) (e : offset w h x y c = offset w h x' y' c') : x = x' ∧ y = y' ∧ c = c' := by
  unfold offset cimgOffset at e
  have e1 : x + w * (y + h * c) = x' + w * (y' + h * c') := by
    have : ∀ a b d : Nat, a + b * w + 0 * (w * h) + d * (w * h * 1) = a + w * (b + h * d) := by
      intros; ring
    rw [← this, ← this]; exact e
  have m := congrArg (· % w) e1
  simp only [Nat.add_mul_mod_self_left, Nat.mod_eq_of_lt hx, Nat.mod_eq_of_lt hx'] at m
  subst m
  have hw : 0 < w := by omega
  have e2 : y + h * c = y' + h * c' := Nat.eq_of_mul_eq_mul_left hw (by omega)
  have m2 := congrArg (· % h) e2
  simp only [Nat.add_mul_mod_self_left, Nat.mod_eq_of_lt hy, Nat.mod_eq_of_lt hy'] at m2
  subst m2
  have hh : 0 < h := by omega
  have e3 : h * c = h * c' := by omega
  exact ⟨rfl, rfl, Nat.eq_of_mul_eq_mul_left hh e3⟩

theorem pixelBody_same (img : XImage) (w h x y : Nat) (buf : Buffer) (hx : x < w) (hy : y < h)
    (c : Nat) (hc : c < 3) :
    pixelBody img w h x y buf (offset w h x y c) = some (channel img c (img.XGetPixel x y)) := by
  have ne : ∀ c', c ≠ c' → offset w h x y c ≠ offset w h x y c' :=
    fun c' hne e => hne (offset_inj hx hx hy hy e).2.2
  simp only [pixelBody, store, store_offset]
  interval_cases c
  · simp [channel, ne 1 (by decide), ne 2 (by decide)]
  · simp [channel, ne 2 (by decide)]
  · simp [channel]

theorem pixelBody_other (img : XImage) (w h x y : Nat) (buf : Buffer) (i : Nat)
    (hi : ∀ c, c < 3 → i ≠ offset w h x y c) : pixelBody img w h x y buf i = buf i := by
  simp [pixelBody, store, store_offset, hi 0, hi 1, hi 2]

theorem columnLoop_other (img : XImage) (w h x : Nat) (i : Nat) (n : Nat) (buf : Buffer)
    (hi : ∀ y c, y < n → c < 3 → i ≠ offset w h x y c) :
    (List.range n).foldl (fun b y => pixelBody img w h x y b) buf i = buf i := by
  induction n with
  | zero => simp
  | succ n ih =>
    rw [List.range_succ, List.foldl_append, List.foldl_cons, List.foldl_nil,
      pixelBody_other _ _ _ _ _ _ _ (fun c hc => hi n c (by omega) hc)]
    exact ih (fun y c hy hc => hi y c (by omega) hc)

theorem columnLoop_same (img : XImage) (w h x : Nat) (hx : x < w) (n : Nat) (hn : n ≤ h)
    (buf : Buffer) (y c : Nat) (hy : y < n) (hc : c < 3) :
    (List.range n).foldl (fun b y => pixelBody img w h x y b) buf (offset w h x y c)
      = some (channel img c (img.XGetPixel x y)) := by
  induction n with
  | zero => omega
  | succ n ih =>
    rw [List.range_succ, List.foldl_append, List.foldl_cons, List.foldl_nil]
    by_cases e : y = n
    · subst e
      exact pixelBody_same _ _ _ _ _ _ hx (by omega) c hc
    · rw [pixelBody_other]
      · exact ih (by omega) (by omega)
      · intro c' _ e'
        exact e (offset_inj hx hx (by omega) (by omega) e').2.1

theorem captureLoop_same (img : XImage) (w h : Nat) (n : Nat) (hn : n ≤ w)
    (buf : Buffer) (x y c : Nat) (hx : x < n) (hy : y < h) (hc : c < 3) :
    (List.range n).foldl (fun b x => columnLoop img w h x b) buf (offset w h x y c)
      = some (channel img c (img.XGetPixel x y)) := by
  induction n with
  | zero => omega
  | succ n ih =>
    rw [List.range_succ, List.foldl_append, List.foldl_cons, List.foldl_nil]
    by_cases e : x = n
    · subst e
      exact columnLoop_same _ _ _ _ (by omega) h (le_refl h) _ y c hy hc
    · unfold columnLoop
      rw [columnLoop_other]
      · exact ih (by omega) (by omega)
      · intro y' c' hy' _ e'
        exact e (offset_inj (by omega) (by omega) hy hy' e').1

theorem mask_shift (p k : Nat) :
    ((p &&& ((2 ^ 8 - 1) <<< k)) >>> k) % 2 ^ 8 = (p >>> k) &&& (2 ^ 8 - 1) := by
  apply Nat.eq_of_testBit_eq
  intro i
  simp only [Nat.testBit_mod_two_pow, Nat.testBit_and, Nat.testBit_shiftRight,
    Nat.testBit_shiftLeft, Nat.testBit_two_pow_sub_one, Nat.add_sub_cancel_left]
  by_cases hi : i < 8 <;> simp [hi]

theorem red_channel (p : Nat) : toUChar ((p &&& 0xFF0000) >>> 16) = (p >>> 16) &&& 0xFF :=
  mask_shift p 16

theorem green_channel (p : Nat) : toUChar ((p &&& 0xFF00) >>> 8) = (p >>> 8) &&& 0xFF :=
  mask_shift p 8

theorem blue_channel (p : Nat) : toUChar (p &&& 0xFF) = p &&& 0xFF := by
  have := mask_shift p 0
  simpa [toUChar] using this

/-- C10: with channel masks `0xFF0000`, `0x00FF00` and `0x0000FF`, after the two loops
every coordinate `(x, y)` with `x < Width` and `y < Height` has its three channels written,
with the values `(p >> 16) & 0xFF`, `(p >> 8) & 0xFF` and `p & 0xFF` for the pixel value
`p` that `XGetPixel` returned at `(x, y)`, whatever the buffer held before. -/
theorem screenshot_channels_written (img : XImage) (width height : Nat) (buf : Buffer)
    (hr : img.red_mask = 0xFF0000) (hg : img.green_mask = 0x00FF00)
    (hb : img.blue_mask = 0x0000FF) (x y : Nat) (hx : x < width) (hy : y < height) :
    linux_screenshot_xlib img width height buf (offset width height x y 0)
        = some ((img.XGetPixel x y >>> 16) &&& 0xFF)
    ∧ linux_screenshot_xlib img width height buf (offset width height x y 1)
        = some ((img.XGetPixel x y >>> 8) &&& 0xFF)
    ∧ linux_screenshot_xlib img width height buf (offset width height x y 2)
        = some (img.XGetPixel x y &&& 0xFF) := by
  have h := fun c hc =>
    captureLoop_same img width height width (le_refl _) buf x y c hx hy hc
  unfold linux_screenshot_xlib
  refine ⟨?_, ?_, ?_⟩
  · rw [h 0 (by decide)]; simp only [channel, hr, red_channel]
  · rw [h 1 (by decide)]; simp only [channel, hg, green_channel]
  · rw [h 2 (by decide)]; simp only [channel, hb, blue_channel]

theorem screenshot_channels_written_witness :
    linux_screenshot_xlib sampleImage 3 2 (fun _ => none) (offset 3 2 2 1 0) = some 0x10
    ∧ linux_screenshot_xlib sampleImage 3 2 (fun _ => none) (offset 3 2 2 1 1) = some 0x21
    ∧ linux_screenshot_xlib sampleImage 3 2 (fun _ => none) (offset 3 2 2 1 2) = some 0x32 :=
  screenshot_channels_written sampleImage 3 2 (fun _ => none) rfl rfl rfl 2 1
    (by decide) (by decide)

end Helix.Screenshot

